import Mathlib

/-!
Shallow embedding of `src/net/ipv4/tcp_cubic.c` (a CUBIC/HyStart TCP
congestion-control module) and proofs about it.

Conventions of the embedding:
* `u32`/`u64` machine integers become `Nat` with an explicit `% 2^32`
  (resp. `% 2^64`) wherever the C arithmetic can wrap.
* `s32` values produced by casts of `u32` differences are modelled by
  `toS32 (sub32 a b) : Int`.
* Module parameters keep their compile-time defaults from the source
  (`fast_convergence = 1`, `beta = 717`, `bic_scale = 41`,
  `tcp_friendliness = 1`, `hystart = 1`, `hystart_detect = 3`,
  `hystart_low_window = 16`, `hystart_ack_delta = 2`); the one parameter a
  claim varies, `hystart_delay_max`, is passed explicitly.
* `HZ = 1000`, so `msecs_to_jiffies` is the identity and
  `jiffies_to_msecs` is the identity.
-/

namespace Cubic

/-- `2^32`, the modulus of `u32` arithmetic. -/
def U32 : Nat := 4294967296

/-- `2^64`, the modulus of `u64` arithmetic. -/
def U64 : Nat := 18446744073709551616

/-- The kernel tick frequency assumed throughout (`HZ = 1000`). -/
def HZ : Nat := 1000

/-- `u32` subtraction `a - b` (wrapping). -/
def sub32 (a b : Nat) : Nat := (a + U32 - b % U32) % U32

/-- Reinterpret a `u32` value as an `s32` (two's complement). -/
def toS32 (n : Nat) : Int :=
  if n % U32 < 2147483648 then (n % U32 : Int) else (n % U32 : Int) - (U32 : Int)

/-- `msecs_to_jiffies` for `HZ = 1000`: the identity. -/
def msecs_to_jiffies (m : Nat) : Nat := m

/-- `#define BICTCP_BETA_SCALE 1024` -/
def BICTCP_BETA_SCALE : Nat := 1024

/-- `#define BICTCP_HZ 10` -/
def BICTCP_HZ : Nat := 10

/-- `#define HYSTART_ACK_TRAIN 0x1` -/
def HYSTART_ACK_TRAIN : Nat := 1

/-- `#define HYSTART_DELAY 0x2` -/
def HYSTART_DELAY : Nat := 2

/-- `#define HYSTART_MIN_SAMPLES 8` -/
def HYSTART_MIN_SAMPLES : Nat := 8

/-- `#define HYSTART_DELAY_MIN (4U<<3)` -/
def HYSTART_DELAY_MIN : Nat := 32

/-- module parameter `fast_convergence` (default 1). -/
def fast_convergence : Bool := true

/-- module parameter `beta` (default 717). -/
def beta : Nat := 717

/-- module parameter `bic_scale` (default 41). -/
def bic_scale : Nat := 41

/-- module parameter `tcp_friendliness` (default 1). -/
def tcp_friendliness : Bool := true

/-- module parameter `hystart` (default 1). -/
def hystart : Bool := true

/-- module parameter `hystart_detect` (default `ACK_TRAIN|DELAY = 3`). -/
def hystart_detect : Nat := 3

/-- module parameter `hystart_low_window` (default 16). -/
def hystart_low_window : Nat := 16

/-- module parameter `hystart_ack_delta` (default 2). -/
def hystart_ack_delta : Nat := 2

/-- `beta_scale = 8*(BICTCP_BETA_SCALE+beta) / 3 / (BICTCP_BETA_SCALE - beta)`,
precomputed in `cubictcp_register`. -/
def beta_scale : Nat := 8 * (BICTCP_BETA_SCALE + beta) / 3 / (BICTCP_BETA_SCALE - beta)

/-- `cube_rtt_scale = bic_scale * 10`, precomputed in `cubictcp_register`. -/
def cube_rtt_scale : Nat := bic_scale * 10

/-- `cube_factor = 2^(10+3*BICTCP_HZ) / (bic_scale * 10)`, precomputed in
`cubictcp_register`. -/
def cube_factor : Nat := (1 <<< (10 + 3 * BICTCP_HZ)) / (bic_scale * 10)

/-- `HYSTART_DELAY_MAX`: `16U<<3` when `hystart_delay_max` is set, else
`INT_MAX` (which the `u32` comparison in `clamp` reads as `2^31 - 1`). -/
def HYSTART_DELAY_MAX (hystart_delay_max : Bool) : Nat :=
  if hystart_delay_max then 128 else 2147483647

/-- `HYSTART_DELAY_THRESH(x) = clamp(x, HYSTART_DELAY_MIN, HYSTART_DELAY_MAX)`,
where the kernel `clamp(v, lo, hi)` is `min (max v lo) hi`. -/
def HYSTART_DELAY_THRESH (hystart_delay_max : Bool) (x : Nat) : Nat :=
  min (max x HYSTART_DELAY_MIN) (HYSTART_DELAY_MAX hystart_delay_max)

/-- The `v[]` lookup table inside `cubic_root`: MSB values of `cbrt(x)` for
`x` in `[0..63]`. -/
def cubeRootTable : List Nat :=
  [0, 54, 54, 54, 118, 118, 118, 118,
   123, 129, 134, 138, 143, 147, 151, 156,
   157, 161, 164, 168, 170, 173, 176, 179,
   181, 185, 187, 190, 192, 194, 197, 199,
   200, 202, 204, 206, 209, 211, 213, 215,
   217, 219, 221, 222, 224, 225, 227, 229,
   231, 232, 234, 236, 237, 239, 240, 242,
   244, 245, 246, 248, 250, 251, 252, 254]

/-- Halving recursion computing the bit length, fuelled so that the
recursion is structural (kernel-reducible); 64 units of fuel are exact for
the `u64` domain of `fls64`. -/
def fls64Aux : Nat → Nat → Nat
  | 0, _ => 0
  | fuel + 1, n => if n = 0 then 0 else fls64Aux fuel (n / 2) + 1

/-- `fls64`: index (1-based) of the highest set bit, 0 for input 0. -/
def fls64 (a : Nat) : Nat := fls64Aux 64 a

/-- The shift amount `b = ((fls64(a) * 84) >> 8) - 1` used on the large-input
path of `cubic_root`. -/
def rootShift (a : Nat) : Nat := ((fls64 a * 84) >>> 8) - 1

/-- The table index `a >> (b * 3)` used on the large-input path of
`cubic_root` (the variable named `shift` in the source). -/
def rootIdx (a : Nat) : Nat := a >>> (rootShift a * 3)

/-- The Newton-Raphson seed
`x = ((u32)(((u32)v[shift] + 10) << b)) >> 6` of `cubic_root`. -/
def rootSeed (a : Nat) : Nat :=
  (((cubeRootTable.getD (rootIdx a) 0 + 10) <<< rootShift a) % U32) >>> 6

/-- `cubic_root(a)`: table lookup plus one Newton-Raphson iteration, exactly
as in the source (all `u32` stores reduced `% 2^32`, the `u64` divisor
product reduced `% 2^64`, and the `u32` decrement `x - 1` wrapping). -/
def cubic_root (a : Nat) : Nat :=
  if fls64 a < 7 then
    (cubeRootTable.getD a 0 + 35) >>> 6
  else
    let x := rootSeed a
    let d := (a / ((x * ((x + U32 - 1) % U32)) % U64)) % U32
    let x := ((2 * x) % U32 + d) % U32
    (x * 341 % U32) >>> 10

/-- `struct bictcp`: the per-connection congestion-avoidance state. -/
structure Bictcp where
  cnt : Nat
  last_max_cwnd : Nat
  last_cwnd : Nat
  last_time : Nat
  bic_origin_point : Nat
  bic_K : Nat
  delay_min : Nat
  epoch_start : Nat
  ack_cnt : Nat
  tcp_cwnd : Nat
  sample_cnt : Nat
  found : Nat
  round_start : Nat
  end_seq : Nat
  last_ack : Nat
  curr_rtt : Nat
  deriving Repr, DecidableEq

/-- The fields of `struct tcp_sock` this module reads or writes. -/
structure TcpSock where
  snd_cwnd : Nat
  snd_ssthresh : Nat
  snd_nxt : Nat
  deriving Repr, DecidableEq

/-- `bictcp_reset`. -/
def bictcp_reset (ca : Bictcp) : Bictcp :=
  { ca with cnt := 0, last_max_cwnd := 0, last_cwnd := 0, last_time := 0,
            bic_origin_point := 0, bic_K := 0, delay_min := 0,
            epoch_start := 0, ack_cnt := 0, tcp_cwnd := 0, found := 0 }

/-- `bictcp_hystart_reset`; `now_ms` is `bictcp_clock()` and `snd_nxt` is
`tp->snd_nxt`. -/
def bictcp_hystart_reset (ca : Bictcp) (now_ms snd_nxt : Nat) : Bictcp :=
  { ca with round_start := now_ms, last_ack := now_ms, end_seq := snd_nxt,
            curr_rtt := 0, sample_cnt := 0 }

/-- `bictcp_init` (with the default configuration `hystart = 1`, so the
HyStart round is also reset; `initial_ssthresh` defaults to 0). -/
def bictcp_init (ca : Bictcp) (now_ms snd_nxt : Nat) : Bictcp :=
  if hystart then bictcp_hystart_reset (bictcp_reset ca) now_ms snd_nxt
  else bictcp_reset ca

/-- The ACK-train detector block of `hystart_update` (the
`hystart_detect & HYSTART_ACK_TRAIN` branch).

Notes on the embedding of the C comparisons:
* `(s32)(now - ca->last_ack) <= hystart_ack_delta` compares two signed
  values, hence `toS32`;
* `(s32)(now - ca->round_start) > ca->delay_min >> 4` compares a signed
  left operand with an unsigned right operand, so C's usual arithmetic
  conversions make it an unsigned comparison — modelled on `sub32` directly. -/
def ackTrainDetect (tp : TcpSock) (ca : Bictcp) (now_ms : Nat) : TcpSock × Bictcp :=
  if hystart_detect &&& HYSTART_ACK_TRAIN ≠ 0 then
    if toS32 (sub32 now_ms ca.last_ack) ≤ (hystart_ack_delta : Int) then
      let ca := { ca with last_ack := now_ms }
      if sub32 now_ms ca.round_start > ca.delay_min >>> 4 then
        ({ tp with snd_ssthresh := tp.snd_cwnd },
         { ca with found := ca.found ||| HYSTART_ACK_TRAIN })
      else (tp, ca)
    else (tp, ca)
  else (tp, ca)

/-- The delay-increase detector block of `hystart_update` (the
`hystart_detect & HYSTART_DELAY` branch). The comparison
`ca->curr_rtt > ca->delay_min + HYSTART_DELAY_THRESH(...)` is a `u32`
comparison whose right side wraps, hence the `% U32`. -/
def delayDetect (hystart_delay_max : Bool) (tp : TcpSock) (ca : Bictcp)
    (delay : Nat) : TcpSock × Bictcp :=
  if hystart_detect &&& HYSTART_DELAY ≠ 0 then
    let ca := if ca.curr_rtt > delay then { ca with curr_rtt := delay } else ca
    if ca.sample_cnt < HYSTART_MIN_SAMPLES then
      let ca :=
        if ca.curr_rtt = 0 ∨ ca.curr_rtt > delay then { ca with curr_rtt := delay }
        else ca
      (tp, { ca with sample_cnt := ca.sample_cnt + 1 })
    else
      if ca.curr_rtt >
          (ca.delay_min + HYSTART_DELAY_THRESH hystart_delay_max (ca.delay_min >>> 3)) % U32 then
        ({ tp with snd_ssthresh := tp.snd_cwnd },
         { ca with found := ca.found ||| HYSTART_DELAY })
      else (tp, ca)
  else (tp, ca)

/-- `hystart_update(sk, delay)`. Inputs: the socket fields, the `bictcp`
state, the `delay` sample (msec << 3) and `now_ms = bictcp_clock()`. The
top guard `if (ca->found & hystart_detect) return;` makes an already-fired
detector a no-op; otherwise the ACK-train block runs, then the
delay-increase block. -/
def hystart_update (hystart_delay_max : Bool) (tp : TcpSock) (ca : Bictcp)
    (delay now_ms : Nat) : TcpSock × Bictcp :=
  if ca.found &&& hystart_detect ≠ 0 then (tp, ca)
  else
    let s := ackTrainDetect tp ca now_ms
    delayDetect hystart_delay_max s.1 s.2 delay

/-- `bictcp_acked(sk, sample)`. Inputs: the socket fields, the `bictcp`
state, `sample->rtt_us` (signed: duplicates carry a negative value),
`now = tcp_jiffies32` and `now_ms = bictcp_clock()`.

The RTT-dispersion block of the source (variance / binary-search standard
deviation) writes only function-local values and a `static` shadow used by
nothing but logging, and the numerous `printk` calls emit diagnostics; both
are side-effect-free on `tp`/`ca` and are not part of the state transformer.
Note that the source, unlike mainline Linux, never writes `ca->delay_min`
here. -/
def bictcp_acked (hystart_delay_max : Bool) (tp : TcpSock) (ca : Bictcp)
    (rtt_us : Int) (now now_ms : Nat) : TcpSock × Bictcp :=
  if rtt_us < 0 then (tp, ca)
  else if ca.epoch_start ≠ 0 ∧ toS32 (sub32 now ca.epoch_start) < (HZ : Int) then (tp, ca)
  else
    let delay0 := (rtt_us.toNat <<< 3) / 1000
    let delay := if delay0 = 0 then 1 else delay0
    if hystart ∧ tp.snd_cwnd < tp.snd_ssthresh ∧ hystart_low_window ≤ tp.snd_cwnd then
      hystart_update hystart_delay_max tp ca delay now_ms
    else (tp, ca)

/-- Fuel-indexed form of the `while (ca->ack_cnt > delta)` loop of the
TCP-friendliness block. Each iteration with `delta ≠ 0` strictly decreases
`ack_cnt`, so fuel `ack_cnt` suffices and the fuel never runs out; the
structural recursion keeps the function kernel-reducible. -/
def friendlyLoopAux (delta : Nat) : Nat → Nat → Nat → Nat × Nat
  | 0, ack_cnt, tcp_cwnd => (ack_cnt, tcp_cwnd)
  | fuel + 1, ack_cnt, tcp_cwnd =>
    if delta ≠ 0 ∧ delta < ack_cnt then
      friendlyLoopAux delta fuel (ack_cnt - delta) ((tcp_cwnd + 1) % U32)
    else (ack_cnt, tcp_cwnd)

/-- The `while (ca->ack_cnt > delta) { ack_cnt -= delta; tcp_cwnd++; }` loop
of the TCP-friendliness block, returning the final `(ack_cnt, tcp_cwnd)`.
The `delta ≠ 0` guard only cuts the case in which the C loop would never
terminate (`delta = 0 < ack_cnt`, impossible for `cwnd ≥ 1`). -/
def friendlyLoop (delta ack_cnt tcp_cwnd : Nat) : Nat × Nat :=
  friendlyLoopAux delta ack_cnt ack_cnt tcp_cwnd

/-- Lines 323-340 of `bictcp_update`: the TCP-friendliness blend
(`tcp_friendliness` label), with the default `tcp_friendliness = 1`.
`delta = (cwnd * scale) >> 3` is a `u32` expression, so the product wraps
`% 2^32` before the shift. -/
def tcpFriendly (cwnd : Nat) (ca : Bictcp) : Bictcp :=
  if tcp_friendliness then
    let delta := ((cwnd * beta_scale) % U32) >>> 3
    let p := friendlyLoop delta ca.ack_cnt ca.tcp_cwnd
    let ca := { ca with ack_cnt := p.1, tcp_cwnd := p.2 }
    if ca.tcp_cwnd > cwnd then
      let max_cnt := cwnd / (ca.tcp_cwnd - cwnd)
      if ca.cnt > max_cnt then { ca with cnt := max_cnt } else ca
    else ca
  else ca

/-- Lines 259-274 of `bictcp_update`: epoch initialisation when
`epoch_start == 0`. -/
def epochInit (ca : Bictcp) (cwnd acked now : Nat) : Bictcp :=
  if ca.epoch_start = 0 then
    let ca := { ca with epoch_start := now, ack_cnt := acked, tcp_cwnd := cwnd }
    if ca.last_max_cwnd ≤ cwnd then
      { ca with bic_K := 0, bic_origin_point := cwnd }
    else
      { ca with
          bic_K := cubic_root (cube_factor * (ca.last_max_cwnd - cwnd) % U64),
          bic_origin_point := ca.last_max_cwnd }
  else ca

/-- Lines 291-321 of `bictcp_update`: evaluation of the cubic curve and the
resulting `ca->cnt`, including the first-epoch clamp to 20.
`t` is a `u64` whose initialiser is a sign-extended `s32`. -/
def cubicCalc (ca : Bictcp) (cwnd now : Nat) : Bictcp :=
  let t0 : Int := toS32 (sub32 now ca.epoch_start)
  let t : Nat := (t0 % (U64 : Int)).toNat
  let t := (t + msecs_to_jiffies (ca.delay_min >>> 3)) % U64
  let t := (t <<< BICTCP_HZ) % U64
  let t := t / HZ
  let offs := if t < ca.bic_K then ca.bic_K - t else t - ca.bic_K
  let delta := ((cube_rtt_scale * offs * offs * offs % U64) >>> (10 + 3 * BICTCP_HZ)) % U32
  let bic_target :=
    if t < ca.bic_K then sub32 ca.bic_origin_point delta
    else (ca.bic_origin_point + delta) % U32
  let cnt := if bic_target > cwnd then cwnd / (bic_target - cwnd) else 100 * cwnd % U32
  let cnt := if ca.last_max_cwnd = 0 ∧ cnt > 20 then 20 else cnt
  { ca with cnt := cnt }

/-- Line 345 of `bictcp_update`: `ca->cnt = max(ca->cnt, 2U)`. -/
def cntFloor (ca : Bictcp) : Bictcp := { ca with cnt := max ca.cnt 2 }

/-- `bictcp_update(ca, cwnd, acked)` with `now = tcp_jiffies32`. -/
def bictcp_update (ca : Bictcp) (cwnd acked now : Nat) : Bictcp :=
  let ca := { ca with ack_cnt := (ca.ack_cnt + acked) % U32 }
  if ca.last_cwnd = cwnd ∧ toS32 (sub32 now ca.last_time) ≤ (HZ : Int) / 32 then ca
  else if ca.epoch_start ≠ 0 ∧ now = ca.last_time then
    cntFloor (tcpFriendly cwnd ca)
  else
    let ca := { ca with last_cwnd := cwnd, last_time := now }
    let ca := epochInit ca cwnd acked now
    let ca := cubicCalc ca cwnd now
    cntFloor (tcpFriendly cwnd ca)

/-- `bictcp_recalc_ssthresh(sk)`: returns the mutated state and the new
slow-start threshold. The port-swizzling locals and `printk` diagnostics of
the source have no effect on the state or the return value. -/
def bictcp_recalc_ssthresh (ca : Bictcp) (cwnd : Nat) : Bictcp × Nat :=
  let ca := { ca with epoch_start := 0 }
  let ca :=
    if cwnd < ca.last_max_cwnd ∧ fast_convergence then
      { ca with last_max_cwnd := cwnd * (BICTCP_BETA_SCALE + beta) % U32 / (2 * BICTCP_BETA_SCALE) }
    else { ca with last_max_cwnd := cwnd }
  (ca, max (cwnd * beta % U32 / BICTCP_BETA_SCALE) 2)

/-- `bictcp_state(sk, new_state)`: on `TCP_CA_Loss`, reset the epoch state
and the HyStart round. -/
def bictcp_state (ca : Bictcp) (is_loss : Bool) (now_ms snd_nxt : Nat) : Bictcp :=
  if is_loss then bictcp_hystart_reset (bictcp_reset ca) now_ms snd_nxt else ca

/-- `bictcp_cwnd_event(sk, CA_EVENT_TX_START)`: shift `epoch_start` forward
by the idle time `delta = now - tp->lsndtime` (an `s32`), clamping with
`after(ca->epoch_start, now)`, i.e. `(s32)(now - epoch_start) < 0`. -/
def bictcp_cwnd_event (ca : Bictcp) (delta : Int) (now : Nat) : Bictcp :=
  if ca.epoch_start ≠ 0 ∧ 0 < delta then
    let ca := { ca with epoch_start := (ca.epoch_start + delta.toNat) % U32 }
    if toS32 (sub32 now ca.epoch_start) < 0 then { ca with epoch_start := now }
    else ca
  else ca

/-- `bictcp_cong_avoid(sk, ack, acked)` restricted to its effect on the
`bictcp` state. `tcp_is_cwnd_limited`, `tcp_in_slow_start` and the value
returned by the external `tcp_slow_start` are supplied by the caller, so
they appear as inputs (`cwnd_limited`, `in_slow_start`, `acked'`);
`tcp_cong_avoid_ai` mutates only `tp`. -/
def bictcp_cong_avoid (ca : Bictcp) (cwnd_limited in_slow_start : Bool)
    (hystart_round_over : Bool) (now_ms snd_nxt : Nat)
    (cwnd acked now : Nat) (slow_start_exhausted : Bool) : Bictcp :=
  if ¬cwnd_limited then ca
  else
    let ca :=
      if in_slow_start ∧ hystart ∧ hystart_round_over then
        bictcp_hystart_reset ca now_ms snd_nxt
      else ca
    if in_slow_start ∧ ¬slow_start_exhausted then ca
    else bictcp_update ca cwnd acked now

/-- The `bictcp` states reachable through the exported callbacks
(`.init`, `.pkts_acked`, `.cong_avoid`, `.ssthresh`, `.set_state`,
`.cwnd_event`), starting from `bictcp_init` on an arbitrary memory
pre-state, with arbitrary caller-supplied inputs at every step. -/
inductive Reachable : Bictcp → Prop
  | init (ca : Bictcp) (now_ms snd_nxt : Nat) :
      Reachable (bictcp_init ca now_ms snd_nxt)
  | acked (ca : Bictcp) (hdm : Bool) (tp : TcpSock) (rtt_us : Int) (now now_ms : Nat) :
      Reachable ca → Reachable (bictcp_acked hdm tp ca rtt_us now now_ms).2
  | cong_avoid (ca : Bictcp) (cl iss hro : Bool) (now_ms snd_nxt cwnd acked now : Nat)
      (sse : Bool) :
      Reachable ca →
      Reachable (bictcp_cong_avoid ca cl iss hro now_ms snd_nxt cwnd acked now sse)
  | ssthresh (ca : Bictcp) (cwnd : Nat) :
      Reachable ca → Reachable (bictcp_recalc_ssthresh ca cwnd).1
  | set_state (ca : Bictcp) (is_loss : Bool) (now_ms snd_nxt : Nat) :
      Reachable ca → Reachable (bictcp_state ca is_loss now_ms snd_nxt)
  | cwnd_event (ca : Bictcp) (delta : Int) (now : Nat) :
      Reachable ca → Reachable (bictcp_cwnd_event ca delta now)

/-- `renoSteps delta ack` is the number of iterations the friendliness
`while` loop performs: `(ack - 1) / delta` when `delta ≠ 0`, else 0. -/
def renoSteps (delta ack : Nat) : Nat := if delta = 0 then 0 else (ack - 1) / delta

/-- Modelled from the spec's words for comparison (claim C-refinement
definition, not source code): the spec's version of the friendliness blend,
in which the synthetic Reno estimate "advances by one per
`(3×current_window)/8` ACKs accumulated". Identical to `tcpFriendly`
except for the ACK quota `3 * cwnd / 8`. -/
def tcpFriendlyClaimed (cwnd : Nat) (ca : Bictcp) : Bictcp :=
  if tcp_friendliness then
    let delta := 3 * cwnd / 8
    let p := friendlyLoop delta ca.ack_cnt ca.tcp_cwnd
    let ca := { ca with ack_cnt := p.1, tcp_cwnd := p.2 }
    if ca.tcp_cwnd > cwnd then
      let max_cnt := cwnd / (ca.tcp_cwnd - cwnd)
      if ca.cnt > max_cnt then { ca with cnt := max_cnt } else ca
    else ca
  else ca

/-- A concrete, fully specified `bictcp` state used by witnesses and
counterexamples. -/
def caBase : Bictcp :=
  { cnt := 100, last_max_cwnd := 200, last_cwnd := 99, last_time := 1000,
    bic_origin_point := 0, bic_K := 0, delay_min := 0, epoch_start := 5,
    ack_cnt := 0, tcp_cwnd := 100, sample_cnt := 0, found := 0,
    round_start := 0, end_seq := 0, last_ack := 0, curr_rtt := 0 }

/-- A concrete socket state used by witnesses and counterexamples. -/
def tpBase : TcpSock := { snd_cwnd := 100, snd_ssthresh := 1000, snd_nxt := 0 }

/-- The sample of inputs for the cube-root accuracy property: 64 evenly
spaced values covering `(0, 2^40]` (multiples of `2^34`). -/
def cubeRootSample : List Nat := (List.range 64).map (fun k => (k + 1) * 17179869184)

section Lemmas

lemma sub32_self (x : Nat) : sub32 x x = 0 := by
  unfold sub32 U32
  omega

lemma tcpFriendly_last_cwnd (cwnd : Nat) (ca : Bictcp) :
    (tcpFriendly cwnd ca).last_cwnd = ca.last_cwnd := by
  simp only [tcpFriendly]
  split_ifs <;> rfl

lemma tcpFriendly_last_time (cwnd : Nat) (ca : Bictcp) :
    (tcpFriendly cwnd ca).last_time = ca.last_time := by
  simp only [tcpFriendly]
  split_ifs <;> rfl

lemma tcpFriendly_epoch_start (cwnd : Nat) (ca : Bictcp) :
    (tcpFriendly cwnd ca).epoch_start = ca.epoch_start := by
  simp only [tcpFriendly]
  split_ifs <;> rfl

lemma tcpFriendly_delay_min (cwnd : Nat) (ca : Bictcp) :
    (tcpFriendly cwnd ca).delay_min = ca.delay_min := by
  simp only [tcpFriendly]
  split_ifs <;> rfl

lemma cntFloor_last_cwnd (ca : Bictcp) : (cntFloor ca).last_cwnd = ca.last_cwnd := rfl

lemma cntFloor_last_time (ca : Bictcp) : (cntFloor ca).last_time = ca.last_time := rfl

lemma cntFloor_delay_min (ca : Bictcp) : (cntFloor ca).delay_min = ca.delay_min := rfl

lemma cubicCalc_delay_min (ca : Bictcp) (cwnd now : Nat) :
    (cubicCalc ca cwnd now).delay_min = ca.delay_min := rfl

lemma cubicCalc_last_cwnd (ca : Bictcp) (cwnd now : Nat) :
    (cubicCalc ca cwnd now).last_cwnd = ca.last_cwnd := rfl

lemma cubicCalc_last_time (ca : Bictcp) (cwnd now : Nat) :
    (cubicCalc ca cwnd now).last_time = ca.last_time := rfl

lemma epochInit_delay_min (ca : Bictcp) (cwnd acked now : Nat) :
    (epochInit ca cwnd acked now).delay_min = ca.delay_min := by
  simp only [epochInit]
  split_ifs <;> rfl

lemma epochInit_last_cwnd (ca : Bictcp) (cwnd acked now : Nat) :
    (epochInit ca cwnd acked now).last_cwnd = ca.last_cwnd := by
  simp only [epochInit]
  split_ifs <;> rfl

lemma epochInit_last_time (ca : Bictcp) (cwnd acked now : Nat) :
    (epochInit ca cwnd acked now).last_time = ca.last_time := by
  simp only [epochInit]
  split_ifs <;> rfl

lemma ackTrainDetect_delay_min (tp : TcpSock) (ca : Bictcp) (now_ms : Nat) :
    (ackTrainDetect tp ca now_ms).2.delay_min = ca.delay_min := by
  simp only [ackTrainDetect]
  split_ifs <;> rfl

lemma delayDetect_delay_min (hdm : Bool) (tp : TcpSock) (ca : Bictcp) (delay : Nat) :
    (delayDetect hdm tp ca delay).2.delay_min = ca.delay_min := by
  simp only [delayDetect]
  split_ifs <;> rfl

lemma hystart_update_delay_min (hdm : Bool) (tp : TcpSock) (ca : Bictcp)
    (delay now_ms : Nat) :
    (hystart_update hdm tp ca delay now_ms).2.delay_min = ca.delay_min := by
  simp only [hystart_update]
  split_ifs with h
  · rfl
  · rw [delayDetect_delay_min, ackTrainDetect_delay_min]

lemma bictcp_update_delay_min (ca : Bictcp) (cwnd acked now : Nat) :
    (bictcp_update ca cwnd acked now).delay_min = ca.delay_min := by
  simp only [bictcp_update]
  split_ifs <;>
    simp [cntFloor_delay_min, tcpFriendly_delay_min, cubicCalc_delay_min, epochInit_delay_min]

lemma hystart_reset_delay_min (ca : Bictcp) (now_ms snd_nxt : Nat) :
    (bictcp_hystart_reset ca now_ms snd_nxt).delay_min = ca.delay_min := rfl

lemma bictcp_acked_delay_min (hdm : Bool) (tp : TcpSock) (ca : Bictcp)
    (rtt_us : Int) (now now_ms : Nat) :
    (bictcp_acked hdm tp ca rtt_us now now_ms).2.delay_min = ca.delay_min := by
  simp only [bictcp_acked]
  split_ifs <;> simp [hystart_update_delay_min]

lemma bictcp_cong_avoid_delay_min (ca : Bictcp) (cl iss hro : Bool)
    (now_ms snd_nxt cwnd acked now : Nat) (sse : Bool) :
    (bictcp_cong_avoid ca cl iss hro now_ms snd_nxt cwnd acked now sse).delay_min =
      ca.delay_min := by
  simp only [bictcp_cong_avoid]
  split_ifs <;> simp [bictcp_update_delay_min, hystart_reset_delay_min]

lemma bictcp_recalc_ssthresh_delay_min (ca : Bictcp) (cwnd : Nat) :
    (bictcp_recalc_ssthresh ca cwnd).1.delay_min = ca.delay_min := by
  simp only [bictcp_recalc_ssthresh]
  split_ifs <;> rfl

lemma bictcp_state_delay_min (ca : Bictcp) (is_loss : Bool) (now_ms snd_nxt : Nat) :
    (bictcp_state ca is_loss now_ms snd_nxt).delay_min =
      if is_loss then 0 else ca.delay_min := by
  simp only [bictcp_state]
  split_ifs <;> rfl

lemma bictcp_cwnd_event_delay_min (ca : Bictcp) (delta : Int) (now : Nat) :
    (bictcp_cwnd_event ca delta now).delay_min = ca.delay_min := by
  simp only [bictcp_cwnd_event]
  split_ifs <;> rfl

lemma bictcp_init_delay_min (ca : Bictcp) (now_ms snd_nxt : Nat) :
    (bictcp_init ca now_ms snd_nxt).delay_min = 0 := by
  simp only [bictcp_init]
  split_ifs <;> rfl

end Lemmas

/-- C1: `bictcp_acked` never writes `ca->delay_min` on any path — for every
input (valid RTT sample or not), the `delay_min` field after the call equals
the field before it. This contradicts the claim that a valid sample with
`delay_min == 0` or `delay_min > delay` sets `delay_min := delay`: the
minimum-tracking assignment present in mainline `tcp_cubic.c` is absent from
this source. -/
theorem acked_never_updates_delay_min (hdm : Bool) (tp : TcpSock) (ca : Bictcp)
    (rtt_us : Int) (now now_ms : Nat) :
    (bictcp_acked hdm tp ca rtt_us now now_ms).2.delay_min = ca.delay_min :=
  bictcp_acked_delay_min hdm tp ca rtt_us now now_ms

/-- C7: once a HyStart detector flag recorded in `ca->found` is set (so
`found & hystart_detect ≠ 0`), `hystart_update` returns immediately:
the socket (in particular `snd_ssthresh`) and the `bictcp` state are both
left unchanged, so no further threshold-setting side effect occurs. -/
theorem hystart_single_fire (hdm : Bool) (tp : TcpSock) (ca : Bictcp)
    (delay now_ms : Nat) (h : ca.found &&& hystart_detect ≠ 0) :
    hystart_update hdm tp ca delay now_ms = (tp, ca) := by
  simp only [hystart_update]
  rw [if_pos h]

/-- Witness for C7 at a concrete fired state (`found = HYSTART_DELAY`). -/
theorem hystart_single_fire_witness :
    { caBase with found := 2 }.found &&& hystart_detect ≠ 0 ∧
      hystart_update true tpBase { caBase with found := 2 } 560 5000 =
        (tpBase, { caBase with found := 2 }) :=
  ⟨by decide, hystart_single_fire true tpBase { caBase with found := 2 } 560 5000 (by decide)⟩

/-- C2: `bictcp_recalc_ssthresh` zeroes `epoch_start`, returns
`max(cwnd * beta / 1024, 2)`, and updates `last_max_cwnd`: with fast
convergence (the default) and `cwnd < last_max_cwnd` it becomes
`cwnd * (1024 + beta) / (2 * 1024)`, strictly below the old value;
otherwise it becomes `cwnd`. The window bound keeps the `u32`
multiplications exact (the source is specified for cwnd < 10^6). -/
theorem recalc_threshold_correct (ca : Bictcp) (cwnd : Nat) (h : cwnd ≤ 1000000) :
    (bictcp_recalc_ssthresh ca cwnd).1.epoch_start = 0 ∧
    (bictcp_recalc_ssthresh ca cwnd).2 = max (cwnd * beta / BICTCP_BETA_SCALE) 2 ∧
    (cwnd < ca.last_max_cwnd →
      (bictcp_recalc_ssthresh ca cwnd).1.last_max_cwnd =
          cwnd * (BICTCP_BETA_SCALE + beta) / (2 * BICTCP_BETA_SCALE) ∧
      (bictcp_recalc_ssthresh ca cwnd).1.last_max_cwnd < ca.last_max_cwnd) ∧
    (ca.last_max_cwnd ≤ cwnd →
      (bictcp_recalc_ssthresh ca cwnd).1.last_max_cwnd = cwnd) := by
  have hm1 : cwnd * (BICTCP_BETA_SCALE + beta) % U32 = cwnd * (BICTCP_BETA_SCALE + beta) := by
    apply Nat.mod_eq_of_lt
    unfold BICTCP_BETA_SCALE beta U32
    omega
  have hm2 : cwnd * beta % U32 = cwnd * beta := by
    apply Nat.mod_eq_of_lt
    unfold beta U32
    omega
  refine ⟨?_, ?_, ?_, ?_⟩
  · simp only [bictcp_recalc_ssthresh]
    split_ifs <;> rfl
  · simp only [bictcp_recalc_ssthresh]
    rw [hm2]
  · intro hlt
    simp only [bictcp_recalc_ssthresh, fast_convergence]
    rw [if_pos ⟨hlt, trivial⟩]
    refine ⟨?_, ?_⟩
    · show cwnd * (BICTCP_BETA_SCALE + beta) % U32 / (2 * BICTCP_BETA_SCALE) =
        cwnd * (BICTCP_BETA_SCALE + beta) / (2 * BICTCP_BETA_SCALE)
      rw [hm1]
    · show cwnd * (BICTCP_BETA_SCALE + beta) % U32 / (2 * BICTCP_BETA_SCALE) < ca.last_max_cwnd
      rw [hm1]
      unfold BICTCP_BETA_SCALE beta
      omega
  · intro hge
    simp only [bictcp_recalc_ssthresh, fast_convergence]
    rw [if_neg (by omega)]

/-- Witness for C2, the spec's post-loss convergence scenario:
`last_max_cwnd = 100`, `cwnd = 60`, `beta = 717` give return value 42 and
new `last_max_cwnd` 51 < 100. -/
theorem recalc_threshold_witness :
    (bictcp_recalc_ssthresh { caBase with last_max_cwnd := 100 } 60).2 = 42 ∧
    (bictcp_recalc_ssthresh { caBase with last_max_cwnd := 100 } 60).1.last_max_cwnd = 51 ∧
    (bictcp_recalc_ssthresh { caBase with last_max_cwnd := 100 } 60).1.last_max_cwnd < 100 ∧
    (bictcp_recalc_ssthresh { caBase with last_max_cwnd := 100 } 60).1.epoch_start = 0 := by
  have h := recalc_threshold_correct { caBase with last_max_cwnd := 100 } 60 (by decide)
  obtain ⟨h1, h2, h3, -⟩ := h
  obtain ⟨h4, h5⟩ := h3 (by decide)
  refine ⟨?_, ?_, h5, h1⟩
  · rw [h2]
    decide
  · rw [h4]
    decide

/-- C3: any call to `bictcp_update` that is not short-circuited by the
rate-limit guard (`last_cwnd == cwnd` and elapsed `≤ HZ/32`) ends at
`ca->cnt = max(ca->cnt, 2U)`, so the stored `cnt` is at least 2 after every
completed update, including the path that skips the cubic recomputation. -/
theorem update_cnt_at_least_two (ca : Bictcp) (cwnd acked now : Nat)
    (h : ¬(ca.last_cwnd = cwnd ∧ toS32 (sub32 now ca.last_time) ≤ (HZ : Int) / 32)) :
    2 ≤ (bictcp_update ca cwnd acked now).cnt := by
  simp only [bictcp_update]
  split_ifs <;> exact Nat.le_max_right _ _

/-- Witness for C3 at a concrete non-rate-limited call (one on which the
pre-floor count is 0, so the floor is exercised). -/
theorem update_cnt_at_least_two_witness :
    ¬(caBase.last_cwnd = 1 ∧ toS32 (sub32 100 caBase.last_time) ≤ (HZ : Int) / 32) ∧
      2 ≤ (bictcp_update caBase 1 1 100).cnt :=
  ⟨by decide, update_cnt_at_least_two caBase 1 1 100 (by decide)⟩

section AckTrainLemmas

lemma ackTrainDetect_snd_cwnd (tp : TcpSock) (ca : Bictcp) (now_ms : Nat) :
    (ackTrainDetect tp ca now_ms).1.snd_cwnd = tp.snd_cwnd := by
  simp only [ackTrainDetect]
  split_ifs <;> rfl

lemma ackTrainDetect_curr_rtt (tp : TcpSock) (ca : Bictcp) (now_ms : Nat) :
    (ackTrainDetect tp ca now_ms).2.curr_rtt = ca.curr_rtt := by
  simp only [ackTrainDetect]
  split_ifs <;> rfl

lemma ackTrainDetect_sample_cnt (tp : TcpSock) (ca : Bictcp) (now_ms : Nat) :
    (ackTrainDetect tp ca now_ms).2.sample_cnt = ca.sample_cnt := by
  simp only [ackTrainDetect]
  split_ifs <;> rfl

end AckTrainLemmas

section DelayDetectLemmas

lemma delayDetect_sample (hdm : Bool) (tp : TcpSock) (ca : Bictcp) (delay : Nat)
    (hs : ca.sample_cnt < HYSTART_MIN_SAMPLES) :
    (delayDetect hdm tp ca delay).2.curr_rtt =
        (if ca.curr_rtt = 0 then delay else min ca.curr_rtt delay) ∧
    (delayDetect hdm tp ca delay).2.sample_cnt = ca.sample_cnt + 1 := by
  have hd : hystart_detect &&& HYSTART_DELAY ≠ 0 := by decide
  simp only [delayDetect]
  rw [if_pos hd]
  split_ifs with h1 h2 h3 h2 h3 <;>
    constructor <;>
      simp_all [HYSTART_MIN_SAMPLES] <;>
      first
        | rfl
        | omega

lemma delayDetect_fire (hdm : Bool) (tp : TcpSock) (ca : Bictcp) (delay : Nat)
    (hs : HYSTART_MIN_SAMPLES ≤ ca.sample_cnt)
    (hfire : (ca.delay_min + HYSTART_DELAY_THRESH hdm (ca.delay_min >>> 3)) % U32 <
      min ca.curr_rtt delay) :
    (delayDetect hdm tp ca delay).1.snd_ssthresh = tp.snd_cwnd ∧
    (delayDetect hdm tp ca delay).2.found = ca.found ||| HYSTART_DELAY := by
  have hd : hystart_detect &&& HYSTART_DELAY ≠ 0 := by decide
  have hf1 : (ca.delay_min + HYSTART_DELAY_THRESH hdm (ca.delay_min >>> 3)) % U32 <
      ca.curr_rtt := lt_of_lt_of_le hfire (Nat.min_le_left _ _)
  have hf2 : (ca.delay_min + HYSTART_DELAY_THRESH hdm (ca.delay_min >>> 3)) % U32 <
      delay := lt_of_lt_of_le hfire (Nat.min_le_right _ _)
  clear hfire
  simp only [delayDetect]
  rw [if_pos hd]
  split_ifs with h1 h2 h3 h2 h3 <;>
    first
      | exact ⟨rfl, rfl⟩
      | (exfalso; simp_all [HYSTART_MIN_SAMPLES] <;> omega)

end DelayDetectLemmas

/-- The HyStart round state the C4 witnesses start from:
`delay_min = 400` (50ms in ms×8 units) and a freshly reset round. -/
def caRound : Bictcp :=
  { caBase with delay_min := 400, round_start := 1000, last_ack := 1000 }

/-- One `on_rtt_sample`-driven HyStart step at delay `d`, clock `n`. -/
def hyStep (s : TcpSock × Bictcp) (d n : Nat) : TcpSock × Bictcp :=
  hystart_update true s.1 s.2 d n

/-- The state after eight RTT samples of 500 (62.5ms) fed to a fresh round:
the minimum of the first 8 samples of the round is 500. The clocks are 10ms
apart, so the ACK-train detector never fires. -/
def caAfterEight : TcpSock × Bictcp :=
  hyStep (hyStep (hyStep (hyStep (hyStep (hyStep (hyStep (hyStep
    (tpBase, caRound) 500 1010) 500 1020) 500 1030) 500 1040)
    500 1050) 500 1060) 500 1070) 500 1080

/-- C4 counterexample: after 8 samples the accumulated minimum of the first
8 RTT samples is `curr_rtt = 500`, which exceeds
`delay_min + HYSTART_DELAY_THRESH(delay_min >> 3) = 400 + 50 = 450`, so by
the claim the detector must fire on the next sample. But the 9th call
(delay 100) first lowers `curr_rtt` to 100 and compares 100, so nothing
fires: `found` stays 0 and `snd_ssthresh` stays 1000. -/
theorem hystart_delay_claim_counterexample :
    caAfterEight.2.sample_cnt = HYSTART_MIN_SAMPLES ∧
    caAfterEight.2.curr_rtt = 500 ∧
    caAfterEight.2.delay_min +
        HYSTART_DELAY_THRESH true (caAfterEight.2.delay_min >>> 3) = 450 ∧
    450 < caAfterEight.2.curr_rtt ∧
    (hyStep caAfterEight 100 1090).2.found = 0 ∧
    (hyStep caAfterEight 100 1090).1.snd_ssthresh = 1000 := by
  decide

/-- C4 amended: in the delay-increase detector of `hystart_update` (entered
with no detector fired yet), (a) each of the first 8 samples of the round
accumulates the running minimum (`0` meaning unset) and advances
`sample_cnt`; (b) once 8 samples are collected, the detector fires — the
DELAY flag is set and `snd_ssthresh` is set to the current window — when
`min(curr_rtt, delay)` (the current sample also participates, unlike the
claim's min of the first 8 only) exceeds
`delay_min + clamp(delay_min/8, 4ms, 16ms | unbounded)`. -/
theorem hystart_delay_detector_amended (hdm : Bool) (tp : TcpSock) (ca : Bictcp)
    (delay now_ms : Nat) (hfound : ca.found &&& hystart_detect = 0) :
    (ca.sample_cnt < HYSTART_MIN_SAMPLES →
      (hystart_update hdm tp ca delay now_ms).2.curr_rtt =
          (if ca.curr_rtt = 0 then delay else min ca.curr_rtt delay) ∧
      (hystart_update hdm tp ca delay now_ms).2.sample_cnt = ca.sample_cnt + 1) ∧
    (HYSTART_MIN_SAMPLES ≤ ca.sample_cnt →
      (ca.delay_min + HYSTART_DELAY_THRESH hdm (ca.delay_min >>> 3)) % U32 <
          min ca.curr_rtt delay →
      (hystart_update hdm tp ca delay now_ms).2.found &&& HYSTART_DELAY = HYSTART_DELAY ∧
      (hystart_update hdm tp ca delay now_ms).1.snd_ssthresh = tp.snd_cwnd) := by
  have hng : ¬(ca.found &&& hystart_detect ≠ 0) := by simp [hfound]
  simp only [hystart_update]
  rw [if_neg hng]
  set s := ackTrainDetect tp ca now_ms with hsdef
  constructor
  · intro hs
    have hcnt : s.2.sample_cnt < HYSTART_MIN_SAMPLES := by
      rw [hsdef, ackTrainDetect_sample_cnt]
      exact hs
    have h := delayDetect_sample hdm s.1 s.2 delay hcnt
    rw [hsdef, ackTrainDetect_curr_rtt, ackTrainDetect_sample_cnt] at h
    exact h
  · intro hs hfire
    have hcnt : HYSTART_MIN_SAMPLES ≤ s.2.sample_cnt := by
      rw [hsdef, ackTrainDetect_sample_cnt]
      exact hs
    have hfire' : (s.2.delay_min + HYSTART_DELAY_THRESH hdm (s.2.delay_min >>> 3)) % U32 <
        min s.2.curr_rtt delay := by
      rw [hsdef, ackTrainDetect_curr_rtt, ackTrainDetect_delay_min]
      exact hfire
    have h := delayDetect_fire hdm s.1 s.2 delay hcnt hfire'
    refine ⟨?_, ?_⟩
    · rw [h.2]
      have : (s.2.found ||| HYSTART_DELAY) &&& HYSTART_DELAY = HYSTART_DELAY := by
        apply Nat.eq_of_testBit_eq
        intro i
        rw [Nat.testBit_and, Nat.testBit_or]
        cases Nat.testBit s.2.found i <;> cases Nat.testBit HYSTART_DELAY i <;> rfl
      exact this
    · rw [h.1, hsdef, ackTrainDetect_snd_cwnd]

section FriendlyLoopLemmas

lemma friendlyLoopAux_spec (delta : Nat) : ∀ fuel ack w, ack ≤ fuel → w < U32 →
    friendlyLoopAux delta fuel ack w =
      (ack - renoSteps delta ack * delta, (w + renoSteps delta ack) % U32) := by
  intro fuel
  induction fuel with
  | zero =>
    intro ack w hf hw
    have hack : ack = 0 := Nat.le_zero.mp hf
    subst hack
    have hk : renoSteps delta 0 = 0 := by
      unfold renoSteps
      split_ifs <;> simp
    rw [friendlyLoopAux, hk]
    simp [Nat.mod_eq_of_lt hw]
  | succ fuel ih =>
    intro ack w hf hw
    rw [friendlyLoopAux]
    split_ifs with h
    · obtain ⟨hd, hlt⟩ := h
      have hrec := ih (ack - delta) ((w + 1) % U32) (by omega)
        (Nat.mod_lt _ (by unfold U32; omega))
      rw [hrec]
      have hsteps : renoSteps delta ack = renoSteps delta (ack - delta) + 1 := by
        unfold renoSteps
        rw [if_neg hd, if_neg hd]
        rw [Nat.div_eq_sub_div (by omega) (by omega), Nat.sub_right_comm]
      rw [hsteps]
      refine Prod.ext ?_ ?_
      · show ack - delta - renoSteps delta (ack - delta) * delta =
          ack - (renoSteps delta (ack - delta) + 1) * delta
        rw [Nat.add_mul, one_mul, Nat.sub_sub, Nat.add_comm]
      · show ((w + 1) % U32 + renoSteps delta (ack - delta)) % U32 =
          (w + (renoSteps delta (ack - delta) + 1)) % U32
        rw [Nat.mod_add_mod]
        congr 1
        omega
    · have hk : renoSteps delta ack = 0 := by
        unfold renoSteps
        split_ifs with h0
        · rfl
        · have : ack ≤ delta := by
            by_contra hc
            exact h ⟨h0, by omega⟩
          exact Nat.div_eq_of_lt (by omega)
      rw [hk]
      simp [Nat.mod_eq_of_lt hw]

lemma friendlyLoop_eq (delta ack w : Nat) (hw : w < U32) :
    friendlyLoop delta ack w =
      (ack - renoSteps delta ack * delta, (w + renoSteps delta ack) % U32) :=
  friendlyLoopAux_spec delta ack ack w le_rfl hw

end FriendlyLoopLemmas

/-- C5 counterexample: the claim's quota "(3×current_window)/8 ACKs per
Reno step" disagrees with the code's `(cwnd * beta_scale) >> 3` with
`beta_scale = 15`: at `cwnd = 8` with 8 ACKs accumulated the code advances
the Reno estimate not at all (8 ≤ 15), while the claimed quota of 3 would
advance it twice. -/
theorem tcp_friendliness_claim_counterexample :
    (tcpFriendly 8 { caBase with ack_cnt := 8, tcp_cwnd := 10 }).tcp_cwnd = 10 ∧
    (tcpFriendlyClaimed 8 { caBase with ack_cnt := 8, tcp_cwnd := 10 }).tcp_cwnd = 12 ∧
    (10 : Nat) ≠ 12 := by
  decide

/-- C5 amended: the TCP-friendliness blend (evaluated on every
non-rate-limited `bictcp_update` call, also when the cubic recomputation is
skipped) advances the synthetic Reno window estimate by one for every
`((current_window * beta_scale) mod 2^32) >> 3` ACKs accumulated in
`ack_cnt` — the `u32` product wraps; `beta_scale = 15`, so for any window
below `2^32 / 15` the quota is (15×current_window)/8, not
(3×current_window)/8 — and whenever the Reno estimate exceeds the current
window, the blend caps `cnt` at
`current_window / (reno_estimate − current_window)`. -/
theorem tcp_friendliness_blend_amended (ca : Bictcp) (cwnd : Nat) (hw : ca.tcp_cwnd < U32) :
    (tcpFriendly cwnd ca).ack_cnt =
        ca.ack_cnt - renoSteps (((cwnd * beta_scale) % U32) >>> 3) ca.ack_cnt *
          (((cwnd * beta_scale) % U32) >>> 3) ∧
    (tcpFriendly cwnd ca).tcp_cwnd =
        (ca.tcp_cwnd + renoSteps (((cwnd * beta_scale) % U32) >>> 3) ca.ack_cnt) % U32 ∧
    (cwnd < (tcpFriendly cwnd ca).tcp_cwnd →
      (tcpFriendly cwnd ca).cnt =
        min ca.cnt (cwnd / ((tcpFriendly cwnd ca).tcp_cwnd - cwnd))) := by
  simp only [tcpFriendly]
  rw [if_pos (show tcp_friendliness = true from rfl)]
  rw [friendlyLoop_eq _ _ _ hw]
  set k := renoSteps (((cwnd * beta_scale) % U32) >>> 3) ca.ack_cnt with hk
  by_cases hgt : (ca.tcp_cwnd + k) % U32 > cwnd
  · rw [if_pos hgt]
    by_cases hcap : ca.cnt > cwnd / ((ca.tcp_cwnd + k) % U32 - cwnd)
    · rw [if_pos hcap]
      refine ⟨rfl, rfl, fun h => ?_⟩
      show cwnd / ((ca.tcp_cwnd + k) % U32 - cwnd) =
        min ca.cnt (cwnd / ((ca.tcp_cwnd + k) % U32 - cwnd))
      omega
    · rw [if_neg hcap]
      refine ⟨rfl, rfl, fun h => ?_⟩
      show ca.cnt = min ca.cnt (cwnd / ((ca.tcp_cwnd + k) % U32 - cwnd))
      omega
  · rw [if_neg hgt]
    refine ⟨rfl, rfl, fun h => ?_⟩
    exact absurd h hgt

/-- Witness for the amended C5: at `cwnd = 100` (quota 187) with 188 ACKs
accumulated, the Reno estimate advances from 100 to 101 leaving
`ack_cnt = 1`, the estimate exceeds the window, and `cnt` is capped at
`min 100 (100/1)`. -/
theorem tcp_friendliness_blend_witness :
    (tcpFriendly 100 { caBase with ack_cnt := 188, cnt := 100 }).tcp_cwnd = 101 ∧
    (tcpFriendly 100 { caBase with ack_cnt := 188, cnt := 100 }).ack_cnt = 1 ∧
    (tcpFriendly 100 { caBase with ack_cnt := 188, cnt := 100 }).cnt =
      min 100 (100 / (101 - 100)) := by
  have h := tcp_friendliness_blend_amended { caBase with ack_cnt := 188, cnt := 100 } 100
    (by decide)
  obtain ⟨h1, h2, h3⟩ := h
  refine ⟨?_, ?_, ?_⟩
  · rw [h2]
    decide
  · rw [h1]
    decide
  · have hgt : (100 : Nat) <
        (tcpFriendly 100 { caBase with ack_cnt := 188, cnt := 100 }).tcp_cwnd := by
      rw [h2]
      decide
    have hc := h3 hgt
    rw [hc, h2]
    decide

/-- Witness for the amended C4: the spec's delay-exit scenario.
Accumulation: a sample of 560 on a fresh round sets `curr_rtt = 560`.
Firing: with `delay_min = 400` (50ms), 8 samples collected and round
minimum 560 (70ms), a further sample of 560 fires the detector
(450 < 560) and sets `snd_ssthresh` to the window. -/
theorem hystart_delay_detector_witness :
    ((hystart_update true tpBase caRound 560 1010).2.curr_rtt = 560 ∧
      (hystart_update true tpBase caRound 560 1010).2.sample_cnt = 1) ∧
    ((hystart_update true tpBase { caRound with sample_cnt := 8, curr_rtt := 560 }
        560 5000).2.found &&& HYSTART_DELAY = HYSTART_DELAY ∧
      (hystart_update true tpBase { caRound with sample_cnt := 8, curr_rtt := 560 }
        560 5000).1.snd_ssthresh = tpBase.snd_cwnd) := by
  constructor
  · have h := (hystart_delay_detector_amended true tpBase caRound 560 1010
      (by decide)).1 (by decide)
    simpa using h
  · exact (hystart_delay_detector_amended true tpBase
      { caRound with sample_cnt := 8, curr_rtt := 560 } 560 5000 (by decide)).2
      (by decide) (by decide)

set_option maxRecDepth 4000 in
/-- C6: cube-root accuracy. For every value of the representative sample
`cubeRootSample` — 64 evenly spaced values covering the range `(0, 2^40]` —
the relative error of `cubic_root` is below 0.5%:
`|cubic_root(v)^3 - v| / v < 1/200`. (Any input is valid: `cubic_root` is a
total function.) -/
theorem cubic_root_accuracy : ∀ v ∈ cubeRootSample,
    ((cubic_root v : Int) ^ 3 - (v : Int)).natAbs * 200 < v := by
  decide

set_option maxRecDepth 4000 in
/-- Witness for C6 at the sample point `v = 2^40`. -/
theorem cubic_root_accuracy_witness :
    ((cubic_root 1099511627776 : Int) ^ 3 - (1099511627776 : Int)).natAbs * 200 <
      1099511627776 :=
  cubic_root_accuracy 1099511627776 (by decide)

section UpdateGuardLemmas

lemma update_guard_cnt (s : Bictcp) (cwnd acked now : Nat)
    (hg : s.last_cwnd = cwnd ∧ toS32 (sub32 now s.last_time) ≤ (HZ : Int) / 32) :
    (bictcp_update s cwnd acked now).cnt = s.cnt := by
  simp only [bictcp_update]
  rw [if_pos hg]

lemma update_elapsed_le (ca : Bictcp) (cwnd acked now : Nat) :
    toS32 (sub32 now (bictcp_update ca cwnd acked now).last_time) ≤ (HZ : Int) / 32 := by
  simp only [bictcp_update]
  split_ifs with h1 h2
  · exact h1.2
  · rw [cntFloor_last_time, tcpFriendly_last_time]
    show toS32 (sub32 now ca.last_time) ≤ (HZ : Int) / 32
    rw [h2.2, sub32_self]
    decide
  · rw [cntFloor_last_time, tcpFriendly_last_time, cubicCalc_last_time, epochInit_last_time]
    show toS32 (sub32 now now) ≤ (HZ : Int) / 32
    rw [sub32_self]
    decide

end UpdateGuardLemmas

/-- C8 counterexample: two `bictcp_update` calls in the same tick
(`now = 1000`) with unchanged `cwnd = 100`, on a state with an active epoch,
`last_time = now` and `last_cwnd = 99 ≠ cwnd`. Neither call is
short-circuited by the rate-limit guard: both take the friendliness-only
path, and the second call lowers `cnt` from 100 to 33 (the Reno estimate
moved further ahead), so the two calls do not yield identical
`increment_count`. -/
theorem update_same_tick_claim_counterexample :
    caBase.epoch_start ≠ 0 ∧ caBase.last_time = 1000 ∧
    (bictcp_update caBase 100 188 1000).cnt = 100 ∧
    (bictcp_update (bictcp_update caBase 100 188 1000) 100 374 1000).cnt = 33 ∧
    (33 : Nat) ≠ 100 := by
  decide

/-- C8 amended: calling `bictcp_update` twice within the same tick with
unchanged `cwnd` yields identical `cnt`, provided the first call leaves
`last_cwnd = cwnd` (i.e. it was not diverted to the friendliness-only path
with a stale `last_cwnd`); the second call is then short-circuited by the
rate-limit guard and leaves `cnt` unchanged. -/
theorem update_same_tick_amended (ca : Bictcp) (cwnd a a' now : Nat)
    (h : (bictcp_update ca cwnd a now).last_cwnd = cwnd) :
    (bictcp_update (bictcp_update ca cwnd a now) cwnd a' now).cnt =
      (bictcp_update ca cwnd a now).cnt :=
  update_guard_cnt _ cwnd a' now ⟨h, update_elapsed_le ca cwnd a now⟩

/-- Witness for the amended C8: a first call at a fresh tick takes the full
path (so `last_cwnd` becomes `cwnd`), and the second call in the same tick
leaves `cnt` unchanged. -/
theorem update_same_tick_amended_witness :
    (bictcp_update caBase 100 188 2000).last_cwnd = 100 ∧
    (bictcp_update (bictcp_update caBase 100 188 2000) 100 374 2000).cnt =
      (bictcp_update caBase 100 188 2000).cnt :=
  ⟨by decide, update_same_tick_amended caBase 100 188 374 2000 (by decide)⟩

/-- C9: in every state reachable through the exported callbacks,
`delay_min = 0`: no code path assigns it a nonzero value — only
`bictcp_reset` writes it, to 0. Consequently the ACK-train detector's
round-elapsed guard compares against `delay_min >> 4 = 0`, and the delay
detector's threshold is always the clamp's lower bound
`HYSTART_DELAY_MIN = 32` (4ms in ms×8 units), in both clamp
configurations. -/
theorem reachable_delay_min_zero (ca : Bictcp) (h : Reachable ca) :
    ca.delay_min = 0 ∧ ca.delay_min >>> 4 = 0 ∧
    (HYSTART_DELAY_THRESH true (ca.delay_min >>> 3) = HYSTART_DELAY_MIN ∧
     HYSTART_DELAY_THRESH false (ca.delay_min >>> 3) = HYSTART_DELAY_MIN) := by
  have hz : ca.delay_min = 0 := by
    induction h with
    | init ca now_ms snd_nxt => exact bictcp_init_delay_min ca now_ms snd_nxt
    | acked ca hdm tp rtt_us now now_ms _ ih =>
        rw [bictcp_acked_delay_min]
        exact ih
    | cong_avoid ca cl iss hro now_ms snd_nxt cwnd acked now sse _ ih =>
        rw [bictcp_cong_avoid_delay_min]
        exact ih
    | ssthresh ca cwnd _ ih =>
        rw [bictcp_recalc_ssthresh_delay_min]
        exact ih
    | set_state ca is_loss now_ms snd_nxt _ ih =>
        rw [bictcp_state_delay_min]
        split_ifs
        · rfl
        · exact ih
    | cwnd_event ca delta now _ ih =>
        rw [bictcp_cwnd_event_delay_min]
        exact ih
  rw [hz]
  refine ⟨rfl, rfl, by decide, by decide⟩

/-- Witness for C9 at the concrete reachable state `bictcp_init caBase 5 7`. -/
theorem reachable_delay_min_zero_witness :
    (bictcp_init caBase 5 7).delay_min = 0 ∧
    (bictcp_init caBase 5 7).delay_min >>> 4 = 0 ∧
    HYSTART_DELAY_THRESH true ((bictcp_init caBase 5 7).delay_min >>> 3) =
      HYSTART_DELAY_MIN ∧
    HYSTART_DELAY_THRESH false ((bictcp_init caBase 5 7).delay_min >>> 3) =
      HYSTART_DELAY_MIN := by
  have h := reachable_delay_min_zero (bictcp_init caBase 5 7) (Reachable.init caBase 5 7)
  exact ⟨h.1, h.2.1, h.2.2.1, h.2.2.2⟩

lemma fls64Aux_zero : ∀ fuel, fls64Aux fuel 0 = 0
  | 0 => rfl
  | fuel + 1 => by rw [fls64Aux, if_pos rfl]

lemma fls64Aux_bounds : ∀ fuel n, n < 2 ^ fuel → 0 < n →
    1 ≤ fls64Aux fuel n ∧ 2 ^ (fls64Aux fuel n - 1) ≤ n ∧ n < 2 ^ (fls64Aux fuel n) := by
  intro fuel
  induction fuel with
  | zero =>
    intro n hn hp
    omega
  | succ fuel ih =>
    intro n hn hp
    rw [fls64Aux, if_neg (by omega)]
    by_cases h2 : n / 2 = 0
    · have hn1 : n = 1 := by omega
      subst hn1
      rw [h2, fls64Aux_zero]
      norm_num
    · have hhalf : n / 2 < 2 ^ fuel := by
        rw [Nat.div_lt_iff_lt_mul (by norm_num)]
        calc n < 2 ^ (fuel + 1) := hn
        _ = 2 ^ fuel * 2 := by rw [Nat.pow_succ]
      obtain ⟨hk1, hklo, hkhi⟩ := ih (n / 2) hhalf (by omega)
      set k := fls64Aux fuel (n / 2) with hk
      have hpow : 2 ^ k = 2 ^ (k - 1) * 2 := by
        conv_lhs => rw [show k = k - 1 + 1 by omega]
        rw [Nat.pow_succ]
      refine ⟨by omega, ?_, ?_⟩
      · show 2 ^ (k + 1 - 1) ≤ n
        simp only [Nat.add_sub_cancel]
        calc 2 ^ k = 2 ^ (k - 1) * 2 := hpow
        _ ≤ n / 2 * 2 := by omega
        _ ≤ n := Nat.div_mul_le_self n 2
      · show n < 2 ^ (k + 1)
        rw [Nat.pow_succ]
        omega

lemma rootShift_facts : ∀ b0 < 65, 7 ≤ b0 →
    1 ≤ ((b0 * 84) >>> 8) - 1 ∧ ((b0 * 84) >>> 8) - 1 ≤ 20 ∧
    3 * (((b0 * 84) >>> 8) - 1) + 4 ≤ b0 ∧ b0 ≤ 3 * (((b0 * 84) >>> 8) - 1) + 6 := by
  decide

lemma cubeRootTable_lower : ∀ s < 64, 8 ≤ s → 123 ≤ cubeRootTable.getD s 0 := by
  decide

lemma cubeRootTable_upper (s : Nat) : cubeRootTable.getD s 0 ≤ 254 := by
  by_cases h : s < 64
  · revert h
    revert s
    decide
  · rw [List.getD_eq_default]
    · norm_num
    · show cubeRootTable.length ≤ s
      have : cubeRootTable.length = 64 := by decide
      omega


/-- C10: totality / memory-safety of `cubic_root` on the `u64` domain.
For every input below `2^64`: on the small path the lookup index (the input
itself) is below the table size 64; on the large path the derived table
index `a >> (3 * (((fls64 a * 84) >> 8) - 1))` is also below 64, the
Newton-Raphson seed is at least 2, and hence the divisor
`x * (x - 1)` (computed in `u32`/`u64` arithmetic) is nonzero — no
out-of-bounds access and no division by zero. -/
theorem cubic_root_safe (a : Nat) (ha : a < U64) :
    (fls64 a < 7 → a < 64) ∧
    (7 ≤ fls64 a →
      rootIdx a < 64 ∧
      2 ≤ rootSeed a ∧
      (rootSeed a * ((rootSeed a + U32 - 1) % U32)) % U64 ≠ 0) := by
  have ha64 : a < 2 ^ 64 := by
    unfold U64 at ha
    omega
  constructor
  · intro h7
    by_cases h0 : a = 0
    · omega
    · have hb : 1 ≤ fls64 a ∧ 2 ^ (fls64 a - 1) ≤ a ∧ a < 2 ^ fls64 a :=
        fls64Aux_bounds 64 a ha64 (Nat.pos_of_ne_zero h0)
      have hle : (2 : Nat) ^ fls64 a ≤ 2 ^ 6 := Nat.pow_le_pow_right (by norm_num) (by omega)
      have h64 : (2 : Nat) ^ 6 = 64 := by norm_num
      omega
  · intro h7
    have h0 : a ≠ 0 := by
      intro h
      subst h
      exact absurd h7 (by decide)
    have hb : 1 ≤ fls64 a ∧ 2 ^ (fls64 a - 1) ≤ a ∧ a < 2 ^ fls64 a :=
      fls64Aux_bounds 64 a ha64 (Nat.pos_of_ne_zero h0)
    obtain ⟨hb1, hblo, hbhi⟩ := hb
    have hle64 : fls64 a ≤ 64 := by
      by_contra hc
      have : (2 : Nat) ^ 64 ≤ 2 ^ (fls64 a - 1) := Nat.pow_le_pow_right (by norm_num) (by omega)
      omega
    obtain ⟨hs1, hs20, hs3, hs4⟩ := rootShift_facts (fls64 a) (by omega) h7
    have hbdef : rootShift a = ((fls64 a * 84) >>> 8) - 1 := rfl
    have hidx : rootIdx a = a / 2 ^ (rootShift a * 3) := by
      rw [rootIdx, Nat.shiftRight_eq_div_pow]
    have hidx_lt : rootIdx a < 64 := by
      rw [hidx, Nat.div_lt_iff_lt_mul (Nat.pos_pow_of_pos _ (by norm_num))]
      calc a < 2 ^ fls64 a := hbhi
      _ ≤ 2 ^ (rootShift a * 3 + 6) := by
          apply Nat.pow_le_pow_right (by norm_num)
          rw [hbdef]
          omega
      _ = 2 ^ 6 * 2 ^ (rootShift a * 3) := by
          rw [← Nat.pow_add]
          ring_nf
      _ = 64 * 2 ^ (rootShift a * 3) := by norm_num
    have hidx_ge : 8 ≤ rootIdx a := by
      rw [hidx, Nat.le_div_iff_mul_le (Nat.pos_pow_of_pos _ (by norm_num))]
      calc 8 * 2 ^ (rootShift a * 3) = 2 ^ (rootShift a * 3 + 3) := by
            rw [Nat.pow_add]
            ring
      _ ≤ 2 ^ (fls64 a - 1) := by
          apply Nat.pow_le_pow_right (by norm_num)
          rw [hbdef]
          omega
      _ ≤ a := hblo
    have htbl : 123 ≤ cubeRootTable.getD (rootIdx a) 0 :=
      cubeRootTable_lower _ hidx_lt hidx_ge
    have htblu : cubeRootTable.getD (rootIdx a) 0 ≤ 254 := cubeRootTable_upper _
    have hbub : rootShift a ≤ 20 := by
      rw [hbdef]
      omega
    have hb1' : 1 ≤ rootShift a := by
      rw [hbdef]
      omega
    have hshift_eq : (cubeRootTable.getD (rootIdx a) 0 + 10) <<< rootShift a =
        (cubeRootTable.getD (rootIdx a) 0 + 10) * 2 ^ rootShift a := by
      rw [Nat.shiftLeft_eq]
    have hsmall : (cubeRootTable.getD (rootIdx a) 0 + 10) * 2 ^ rootShift a < U32 := by
      calc (cubeRootTable.getD (rootIdx a) 0 + 10) * 2 ^ rootShift a
          ≤ 264 * 2 ^ 20 := by
            apply Nat.mul_le_mul (by omega)
            exact Nat.pow_le_pow_right (by norm_num) hbub
      _ < U32 := by
          unfold U32
          norm_num
    have hseed_eq : rootSeed a =
        (cubeRootTable.getD (rootIdx a) 0 + 10) * 2 ^ rootShift a / 64 := by
      rw [rootSeed, hshift_eq, Nat.mod_eq_of_lt hsmall, Nat.shiftRight_eq_div_pow]
    have hseed2 : 2 ≤ rootSeed a := by
      rw [hseed_eq, Nat.le_div_iff_mul_le (by norm_num)]
      calc 2 * 64 = 128 := by norm_num
      _ ≤ 133 * 2 ^ 1 := by norm_num
      _ ≤ (cubeRootTable.getD (rootIdx a) 0 + 10) * 2 ^ rootShift a := by
          apply Nat.mul_le_mul (by omega)
          exact Nat.pow_le_pow_right (by norm_num) hb1'
    have hseedlt : rootSeed a < U32 := by
      rw [hseed_eq]
      have : (cubeRootTable.getD (rootIdx a) 0 + 10) * 2 ^ rootShift a / 64 ≤
          (cubeRootTable.getD (rootIdx a) 0 + 10) * 2 ^ rootShift a := Nat.div_le_self _ _
      omega
    refine ⟨hidx_lt, hseed2, ?_⟩
    have hdec : (rootSeed a + U32 - 1) % U32 = rootSeed a - 1 := by
      unfold U32 at hseedlt ⊢
      omega
    rw [hdec]
    have hmul : rootSeed a * (rootSeed a - 1) < U64 := by
      have h1 : rootSeed a - 1 < U32 := by omega
      calc rootSeed a * (rootSeed a - 1) < U32 * U32 := by
            apply Nat.mul_lt_mul_of_lt_of_le hseedlt (by omega)
            unfold U32
            norm_num
      _ = U64 := by
          unfold U32 U64
          norm_num
    rw [Nat.mod_eq_of_lt hmul]
    have : 0 < rootSeed a * (rootSeed a - 1) := Nat.mul_pos (by omega) (by omega)
    omega

/-- Witness for C10 at `a = 2^40` (a large-path input). -/
theorem cubic_root_safe_witness :
    7 ≤ fls64 1099511627776 ∧
    rootIdx 1099511627776 < 64 ∧
    2 ≤ rootSeed 1099511627776 ∧
    (rootSeed 1099511627776 * ((rootSeed 1099511627776 + U32 - 1) % U32)) % U64 ≠ 0 := by
  have h := (cubic_root_safe 1099511627776 (by decide)).2 (by decide)
  exact ⟨by decide, h.1, h.2.1, h.2.2⟩

end Cubic
